import Mathlib

/-!
Verification of the churchtools-pdfcalendar-extension layout engine.

The TypeScript source is shallowly embedded: JS numbers are modelled as
exact rationals (the spec states numeric properties "within floating-point
tolerance", which corresponds to exact equality over the rationals), JS
Date values as explicit year/month/day/hour/minute records, and fallible
operations as Except values.
-/

namespace PdfCal

/-! ## Row-height distribution (CalendarBuilder.distributeRowHeights)

The source keeps four parallel pieces of state: the rowHeights array, the
isFixed array, the remaining pool and the flexible-row count.  Here each
row's slice of the two arrays is stored alongside its content height in a
single record, so that the inner for-loop becomes structural recursion on
the row list; remaining and flexCount are threaded unchanged. -/

structure DRow where
  content : ℚ
  height : ℚ
  fixed : Bool
  deriving Repr, DecidableEq

/-- One pass of the inner for-loop of distributeRowHeights: rows are
scanned in index order against the equal share computed at the start of the
pass; a still-flexible row whose content exceeds that share is pinned to
its content height, the remaining pool shrinks by that content and the
flexible count drops by one, and the changed flag is set. -/
def distPass (share : ℚ) : List DRow → ℚ → Nat → Bool → (List DRow × ℚ × Nat × Bool)
  | [], remaining, flexCount, changed => ([], remaining, flexCount, changed)
  | row :: rest, remaining, flexCount, changed =>
    if row.fixed then
      let out := distPass share rest remaining flexCount changed
      (row :: out.1, out.2)
    else if row.content > share then
      let out := distPass share rest (remaining - row.content) (flexCount - 1) true
      ({ row with height := row.content, fixed := true } :: out.1, out.2)
    else
      let out := distPass share rest remaining flexCount changed
      (row :: out.1, out.2)

/-- The outer `for (iteration = 0; iteration < numRows; ...)` loop of
distributeRowHeights, as recursion on the iteration budget.  The JS
division remaining/flexCount at flexCount = 0 yields an infinity/NaN that
the pass never consults (every row is already fixed then, see
`distLoop_flexCount_pos`); rational division by zero likewise yields a
value (0) that is never consulted. -/
def distLoop : Nat → List DRow → ℚ → Nat → (List DRow × ℚ × Nat)
  | 0, rows, remaining, flexCount => (rows, remaining, flexCount)
  | Nat.succ n, rows, remaining, flexCount =>
    let share := remaining / (flexCount : ℚ)
    let out := distPass share rows remaining flexCount false
    if out.2.2.2 then distLoop n out.1 out.2.1 out.2.2.1 else (out.1, out.2.1, out.2.2.1)

/-- Full state returned by the iterative phase of distributeRowHeights:
the per-row records plus the final remaining pool and flexible count. -/
def distributeRowHeightsFull (contentHeights : List ℚ) (totalAvailable : ℚ) :
    List DRow × ℚ × Nat :=
  let numRows := contentHeights.length
  let rows0 := contentHeights.map (fun c => ⟨c, 0, false⟩)
  distLoop numRows rows0 totalAvailable numRows

/-- CalendarBuilder.distributeRowHeights: after the iterative phase, the
remaining space is split equally among the still-flexible rows (guarded
exactly as in the source: flexCount > 0 ? remaining / flexCount : 0). -/
def distributeRowHeights (contentHeights : List ℚ) (totalAvailable : ℚ) : List ℚ :=
  let st := distributeRowHeightsFull contentHeights totalAvailable
  let equalShare := if 0 < st.2.2 then st.2.1 / (st.2.2 : ℚ) else 0
  st.1.map (fun row => if row.fixed then row.height else equalShare)

/-- The isFixed flags of the solution (observable through which rows were
pinned to their content height). -/
def rowFixedFlags (contentHeights : List ℚ) (totalAvailable : ℚ) : List Bool :=
  (distributeRowHeightsFull contentHeights totalAvailable).1.map (fun row => row.fixed)

/-! ### Invariants of the distribution loop -/

/-- Sum of the content heights of the still-flexible rows. -/
def flexSum (rows : List DRow) : ℚ :=
  (rows.map (fun r => if r.fixed then 0 else r.content)).sum

/-- Sum of the content heights of the fixed rows. -/
def fixedSum (rows : List DRow) : ℚ :=
  (rows.map (fun r => if r.fixed then r.content else 0)).sum

/-- Number of still-flexible rows. -/
def flexCountOf (rows : List DRow) : Nat :=
  rows.countP (fun r => !r.fixed)

/-- Every fixed row carries exactly its content height. -/
def HeightsInv (rows : List DRow) : Prop :=
  ∀ row ∈ rows, row.fixed = true → row.height = row.content

lemma flexSum_cons (row : DRow) (rest : List DRow) :
    flexSum (row :: rest) = (if row.fixed then 0 else row.content) + flexSum rest := by
  simp [flexSum]

lemma fixedSum_cons (row : DRow) (rest : List DRow) :
    fixedSum (row :: rest) = (if row.fixed then row.content else 0) + fixedSum rest := by
  simp [fixedSum]

lemma flexCountOf_cons (row : DRow) (rest : List DRow) :
    flexCountOf (row :: rest) = (if row.fixed then 0 else 1) + flexCountOf rest := by
  by_cases h : row.fixed <;> simp [flexCountOf, List.countP_cons, h, Nat.add_comm]

lemma flexCountOf_zero_flexSum (rows : List DRow) (h : flexCountOf rows = 0) :
    flexSum rows = 0 := by
  induction rows with
  | nil => simp [flexSum]
  | cons row rest ih =>
    rw [flexCountOf_cons] at h
    rw [flexSum_cons]
    by_cases hf : row.fixed
    · simp only [hf, if_true]
      rw [ih (by omega)]
      ring
    · simp [hf] at h

lemma flexCountOf_zero_all_fixed (rows : List DRow) (h : flexCountOf rows = 0) :
    ∀ row ∈ rows, row.fixed = true := by
  intro row hrow
  by_contra hfix
  have hpred : (fun r : DRow => !r.fixed) row = true := by
    simp only [Bool.not_eq_true] at hfix
    simp [hfix]
  have hpos : 0 < flexCountOf rows := List.countP_pos_iff.mpr ⟨row, hrow, hpred⟩
  omega

lemma contentSum_eq (rows : List DRow) :
    (rows.map (fun r => r.content)).sum = fixedSum rows + flexSum rows := by
  induction rows with
  | nil => simp [fixedSum, flexSum]
  | cons row rest ih =>
    rw [fixedSum_cons, flexSum_cons]
    by_cases h : row.fixed <;> simp [h, ih] <;> ring

lemma distPass_changed_true (share : ℚ) (rows : List DRow) :
    ∀ (r : ℚ) (f : Nat), (distPass share rows r f true).2.2.2 = true := by
  induction rows with
  | nil => intro r f; rfl
  | cons row rest ih =>
    intro r f
    by_cases h1 : row.fixed
    · simp only [distPass, h1, if_true]; exact ih r f
    · by_cases h2 : row.content > share
      · simp only [distPass, h1, if_false, h2, if_true, Bool.false_eq_true]
        exact ih (r - row.content) (f - 1)
      · simp only [distPass, h1, if_false, h2, if_true, Bool.false_eq_true]
        exact ih r f

lemma distPass_contents (share : ℚ) (rows : List DRow) :
    ∀ (r : ℚ) (f : Nat) (c : Bool),
      (distPass share rows r f c).1.map (fun x => x.content) = rows.map (fun x => x.content) := by
  induction rows with
  | nil => intro r f c; rfl
  | cons row rest ih =>
    intro r f c
    by_cases h1 : row.fixed
    · simp only [distPass, h1, if_true, List.map_cons]
      rw [ih]
    · by_cases h2 : row.content > share
      · simp only [distPass, h1, h2, if_true, if_false, Bool.false_eq_true, List.map_cons]
        rw [ih]
      · simp only [distPass, h1, h2, if_true, if_false, Bool.false_eq_true, List.map_cons]
        rw [ih]

lemma distPass_heightsInv (share : ℚ) (rows : List DRow) :
    ∀ (r : ℚ) (f : Nat) (c : Bool), HeightsInv rows →
      HeightsInv (distPass share rows r f c).1 := by
  induction rows with
  | nil => intro r f c _; exact fun row h => absurd h (List.not_mem_nil row)
  | cons row rest ih =>
    intro r f c hinv
    have hrest : HeightsInv rest := fun x hx => hinv x (List.mem_cons_of_mem _ hx)
    have hrow := hinv row (List.mem_cons_self _ _)
    by_cases h1 : row.fixed
    · simp only [distPass, h1, if_true]
      intro x hx
      rcases List.mem_cons.mp hx with hx | hx
      · subst hx; exact hrow
      · exact ih r f c hrest x hx
    · by_cases h2 : row.content > share
      · simp only [distPass, h1, h2, if_true, if_false, Bool.false_eq_true]
        intro x hx
        rcases List.mem_cons.mp hx with hx | hx
        · subst hx; intro _; rfl
        · exact ih (r - row.content) (f - 1) true hrest x hx
      · simp only [distPass, h1, h2, if_true, if_false, Bool.false_eq_true]
        intro x hx
        rcases List.mem_cons.mp hx with hx | hx
        · subst hx; exact hrow
        · exact ih r f c hrest x hx

lemma distPass_flexCount (share : ℚ) (rows : List DRow) :
    ∀ (r : ℚ) (f : Nat) (c : Bool), flexCountOf rows ≤ f →
      (distPass share rows r f c).2.2.1 + flexCountOf rows
        = f + flexCountOf (distPass share rows r f c).1 := by
  induction rows with
  | nil => intro r f c _; simp [distPass, flexCountOf]
  | cons row rest ih =>
    intro r f c hf
    rw [flexCountOf_cons] at hf
    by_cases h1 : row.fixed
    · rw [if_pos h1] at hf
      simp only [distPass, h1, if_true]
      rw [flexCountOf_cons, if_pos h1, flexCountOf_cons, if_pos h1]
      have := ih r f c (by omega)
      omega
    · rw [if_neg h1] at hf
      by_cases h2 : row.content > share
      · simp only [distPass, h1, h2, if_true, if_false, Bool.false_eq_true]
        rw [flexCountOf_cons, if_neg h1, flexCountOf_cons, if_pos rfl]
        have := ih (r - row.content) (f - 1) true (by omega)
        omega
      · simp only [distPass, h1, h2, if_true, if_false, Bool.false_eq_true]
        rw [flexCountOf_cons, if_neg h1, flexCountOf_cons, if_neg h1]
        have := ih r f c (by omega)
        omega

lemma distPass_remaining (share : ℚ) (rows : List DRow) :
    ∀ (r : ℚ) (f : Nat) (c : Bool),
      (distPass share rows r f c).2.1 - flexSum (distPass share rows r f c).1
        = r - flexSum rows := by
  induction rows with
  | nil => intro r f c; simp [distPass, flexSum]
  | cons row rest ih =>
    intro r f c
    by_cases h1 : row.fixed
    · simp only [distPass, h1, if_true]
      rw [flexSum_cons, flexSum_cons, if_pos h1]
      have := ih r f c
      linarith
    · by_cases h2 : row.content > share
      · simp only [distPass, h1, h2, if_true, if_false, Bool.false_eq_true]
        rw [flexSum_cons, flexSum_cons, if_neg h1, if_pos rfl]
        have := ih (r - row.content) (f - 1) true
        linarith
      · simp only [distPass, h1, h2, if_true, if_false, Bool.false_eq_true]
        rw [flexSum_cons, flexSum_cons, if_neg h1]
        have := ih r f c
        linarith

lemma distPass_count_le (share : ℚ) (rows : List DRow) :
    ∀ (r : ℚ) (f : Nat) (c : Bool),
      flexCountOf (distPass share rows r f c).1 ≤ flexCountOf rows := by
  induction rows with
  | nil => intro r f c; simp [distPass]
  | cons row rest ih =>
    intro r f c
    by_cases h1 : row.fixed
    · simp only [distPass, h1, if_true]
      rw [flexCountOf_cons, flexCountOf_cons, if_pos h1]
      have := ih r f c
      omega
    · by_cases h2 : row.content > share
      · simp only [distPass, h1, h2, if_true, if_false, Bool.false_eq_true]
        rw [flexCountOf_cons, flexCountOf_cons, if_neg h1, if_pos rfl]
        have := ih (r - row.content) (f - 1) true
        omega
      · simp only [distPass, h1, h2, if_true, if_false, Bool.false_eq_true]
        rw [flexCountOf_cons, flexCountOf_cons, if_neg h1]
        have := ih r f c
        omega

lemma distPass_count_lt (share : ℚ) (rows : List DRow) :
    ∀ (r : ℚ) (f : Nat),
      (distPass share rows r f false).2.2.2 = true →
      flexCountOf (distPass share rows r f false).1 < flexCountOf rows := by
  induction rows with
  | nil => intro r f h; simp [distPass] at h
  | cons row rest ih =>
    intro r f h
    by_cases h1 : row.fixed
    · simp only [distPass, h1, if_true] at h ⊢
      rw [flexCountOf_cons, flexCountOf_cons, if_pos h1]
      have := ih r f h
      omega
    · by_cases h2 : row.content > share
      · simp only [distPass, h1, h2, if_true, if_false, Bool.false_eq_true]
        rw [flexCountOf_cons, flexCountOf_cons, if_neg h1, if_pos rfl]
        have := distPass_count_le share rest (r - row.content) (f - 1) true
        omega
      · simp only [distPass, h1, h2, if_true, if_false, Bool.false_eq_true] at h ⊢
        rw [flexCountOf_cons, flexCountOf_cons, if_neg h1]
        have := ih r f h
        omega

lemma distPass_nochange (share : ℚ) (rows : List DRow) :
    ∀ (r : ℚ) (f : Nat),
      (distPass share rows r f false).2.2.2 = false →
      distPass share rows r f false = (rows, r, f, false)
        ∧ ∀ row ∈ rows, row.fixed = false → row.content ≤ share := by
  induction rows with
  | nil => intro r f _; exact ⟨rfl, by simp⟩
  | cons row rest ih =>
    intro r f h
    by_cases h1 : row.fixed
    · simp only [distPass, h1, if_true] at h ⊢
      obtain ⟨heq, hbound⟩ := ih r f h
      constructor
      · rw [heq]
      · intro x hx
        rcases List.mem_cons.mp hx with hx | hx
        · subst hx; simp [h1]
        · exact hbound x hx
    · by_cases h2 : row.content > share
      · exfalso
        simp only [distPass, h1, h2, if_true, if_false, Bool.false_eq_true] at h
        rw [distPass_changed_true] at h
        exact Bool.true_eq_false.mp h
      · simp only [distPass, h1, h2, if_true, if_false, Bool.false_eq_true] at h ⊢
        obtain ⟨heq, hbound⟩ := ih r f h
        constructor
        · rw [heq]
        · intro x hx
          rcases List.mem_cons.mp hx with hx | hx
          · subst hx; intro _; exact le_of_not_lt h2
          · exact hbound x hx

lemma distPass_no_fix (share : ℚ) (rows : List DRow) :
    ∀ (r : ℚ) (f : Nat) (c : Bool),
      (∀ row ∈ rows, row.fixed = false → row.content ≤ share) →
      distPass share rows r f c = (rows, r, f, c) := by
  induction rows with
  | nil => intro r f c _; rfl
  | cons row rest ih =>
    intro r f c hb
    have hbrest : ∀ x ∈ rest, x.fixed = false → x.content ≤ share :=
      fun x hx => hb x (List.mem_cons_of_mem _ hx)
    by_cases h1 : row.fixed
    · simp only [distPass, h1, if_true, ih r f c hbrest]
    · have hle := hb row (List.mem_cons_self _ _) (by simpa using h1)
      have h2 : ¬(row.content > share) := not_lt.mpr hle
      simp only [distPass, h1, h2, if_true, if_false, Bool.false_eq_true,
        ih r f c hbrest]

lemma distPass_phi (share : ℚ) (rows : List DRow) :
    ∀ (r : ℚ) (f : Nat) (c : Bool), flexCountOf rows ≤ f →
      (distPass share rows r f c).2.1
          - share * ((distPass share rows r f c).2.2.1 : ℚ)
        ≤ r - share * (f : ℚ) := by
  induction rows with
  | nil => intro r f c _; simp [distPass]
  | cons row rest ih =>
    intro r f c hf
    rw [flexCountOf_cons] at hf
    by_cases h1 : row.fixed
    · rw [if_pos h1] at hf
      simp only [distPass, h1, if_true]
      exact ih r f c (by omega)
    · rw [if_neg h1] at hf
      by_cases h2 : row.content > share
      · simp only [distPass, h1, h2, if_true, if_false, Bool.false_eq_true]
        have hstep := ih (r - row.content) (f - 1) true (by omega)
        have hcast : ((f - 1 : Nat) : ℚ) = (f : ℚ) - 1 := by
          have h1f : 1 ≤ f := by omega
          push_cast [h1f]
          ring
        rw [hcast] at hstep
        nlinarith [hstep]
      · simp only [distPass, h1, h2, if_true, if_false, Bool.false_eq_true]
        exact ih r f c (by omega)

lemma distPass_phi_strict (share : ℚ) (rows : List DRow) :
    ∀ (r : ℚ) (f : Nat), flexCountOf rows ≤ f →
      (distPass share rows r f false).2.2.2 = true →
      (distPass share rows r f false).2.1
          - share * ((distPass share rows r f false).2.2.1 : ℚ)
        < r - share * (f : ℚ) := by
  induction rows with
  | nil => intro r f _ h; simp [distPass] at h
  | cons row rest ih =>
    intro r f hf h
    rw [flexCountOf_cons] at hf
    by_cases h1 : row.fixed
    · rw [if_pos h1] at hf
      simp only [distPass, h1, if_true] at h ⊢
      exact ih r f (by omega) h
    · rw [if_neg h1] at hf
      by_cases h2 : row.content > share
      · simp only [distPass, h1, h2, if_true, if_false, Bool.false_eq_true]
        have hstep := distPass_phi share rest (r - row.content) (f - 1) true (by omega)
        have hcast : ((f - 1 : Nat) : ℚ) = (f : ℚ) - 1 := by
          have h1f : 1 ≤ f := by omega
          push_cast [h1f]
          ring
        rw [hcast] at hstep
        nlinarith [hstep]
      · simp only [distPass, h1, h2, if_true, if_false, Bool.false_eq_true] at h ⊢
        exact ih r f (by omega) h

lemma distLoop_invariants (n : Nat) :
    ∀ (rows : List DRow) (r : ℚ) (f : Nat), f = flexCountOf rows →
      (distLoop n rows r f).1.map (fun x => x.content) = rows.map (fun x => x.content)
      ∧ (distLoop n rows r f).2.2 = flexCountOf (distLoop n rows r f).1
      ∧ (distLoop n rows r f).2.1 - flexSum (distLoop n rows r f).1 = r - flexSum rows
      ∧ (HeightsInv rows → HeightsInv (distLoop n rows r f).1) := by
  induction n with
  | zero =>
    intro rows r f hsync
    exact ⟨rfl, by simpa [distLoop] using hsync, by simp [distLoop], fun h => h⟩
  | succ n ih =>
    intro rows r f hsync
    have hsync2 := distPass_flexCount (r / (f : ℚ)) rows r f false (le_of_eq hsync.symm)
    by_cases hch : (distPass (r / (f : ℚ)) rows r f false).2.2.2
    · simp only [distLoop, hch, if_true]
      have hrec := ih (distPass (r / (f : ℚ)) rows r f false).1
        (distPass (r / (f : ℚ)) rows r f false).2.1
        (distPass (r / (f : ℚ)) rows r f false).2.2.1 (by omega)
      refine ⟨?_, hrec.2.1, ?_, ?_⟩
      · rw [hrec.1, distPass_contents]
      · rw [hrec.2.2.1, distPass_remaining]
      · intro hinv
        exact hrec.2.2.2 (distPass_heightsInv _ _ _ _ _ hinv)
    · simp only [distLoop, hch, if_false, Bool.false_eq_true]
      obtain ⟨heq, -⟩ := distPass_nochange (r / (f : ℚ)) rows r f (by simpa using hch)
      rw [heq]
      exact ⟨rfl, by simpa using hsync, by ring, fun h => h⟩

lemma distLoop_exit (n : Nat) :
    ∀ (rows : List DRow) (r : ℚ) (f : Nat), f = flexCountOf rows →
      flexCountOf rows ≤ n →
      (distLoop n rows r f).2.2 = 0
      ∨ ∀ row ∈ (distLoop n rows r f).1, row.fixed = false →
          row.content ≤ (distLoop n rows r f).2.1 / ((distLoop n rows r f).2.2 : ℚ) := by
  induction n with
  | zero =>
    intro rows r f hsync hfuel
    left
    simp only [distLoop]
    omega
  | succ n ih =>
    intro rows r f hsync hfuel
    have hsync2 := distPass_flexCount (r / (f : ℚ)) rows r f false (le_of_eq hsync.symm)
    by_cases hch : (distPass (r / (f : ℚ)) rows r f false).2.2.2
    · simp only [distLoop, hch, if_true]
      have hlt := distPass_count_lt (r / (f : ℚ)) rows r f hch
      exact ih (distPass (r / (f : ℚ)) rows r f false).1
        (distPass (r / (f : ℚ)) rows r f false).2.1
        (distPass (r / (f : ℚ)) rows r f false).2.2.1 (by omega) (by omega)
    · simp only [distLoop, hch, if_false, Bool.false_eq_true]
      obtain ⟨heq, hbound⟩ := distPass_nochange (r / (f : ℚ)) rows r f (by simpa using hch)
      rw [heq]
      exact Or.inr hbound

lemma distLoop_flexCount_pos (n : Nat) :
    ∀ (rows : List DRow) (r : ℚ) (f : Nat), f = flexCountOf rows →
      flexSum rows ≤ r → 1 ≤ f →
      1 ≤ (distLoop n rows r f).2.2 := by
  induction n with
  | zero => intro rows r f _ _ hf; simpa [distLoop] using hf
  | succ n ih =>
    intro rows r f hsync hJ hf
    have hsync2 := distPass_flexCount (r / (f : ℚ)) rows r f false (le_of_eq hsync.symm)
    by_cases hch : (distPass (r / (f : ℚ)) rows r f false).2.2.2
    · simp only [distLoop, hch, if_true]
      have hrem := distPass_remaining (r / (f : ℚ)) rows r f false
      have hpos : 1 ≤ (distPass (r / (f : ℚ)) rows r f false).2.2.1 := by
        by_contra hzero
        have hz : (distPass (r / (f : ℚ)) rows r f false).2.2.1 = 0 := by omega
        have hstrict := distPass_phi_strict (r / (f : ℚ)) rows r f (le_of_eq hsync.symm) hch
        rw [hz] at hstrict
        have hfne : ((f : ℚ)) ≠ 0 := by
          have : (0 : ℚ) < (f : ℚ) := by exact_mod_cast hf
          exact ne_of_gt this
        rw [div_mul_cancel₀ r hfne] at hstrict
        have hflexz : flexCountOf (distPass (r / (f : ℚ)) rows r f false).1 = 0 := by omega
        have : flexSum (distPass (r / (f : ℚ)) rows r f false).1 = 0 :=
          flexCountOf_zero_flexSum _ hflexz
        simp only [Nat.cast_zero, mul_zero, sub_zero] at hstrict
        linarith [hrem, this, hJ]
      refine ih (distPass (r / (f : ℚ)) rows r f false).1
        (distPass (r / (f : ℚ)) rows r f false).2.1
        (distPass (r / (f : ℚ)) rows r f false).2.2.1 (by omega) ?_ hpos
      have hrem2 := distPass_remaining (r / (f : ℚ)) rows r f false
      linarith
    · simp only [distLoop, hch, if_false, Bool.false_eq_true]
      obtain ⟨heq, -⟩ := distPass_nochange (r / (f : ℚ)) rows r f (by simpa using hch)
      rw [heq]
      exact hf

/-! ### From loop invariants to the returned height list -/

/-- The initial per-row state built by distributeRowHeights: height 0, not
fixed. -/
def initRows (contentHeights : List ℚ) : List DRow :=
  contentHeights.map (fun c => ⟨c, 0, false⟩)

lemma initRows_contents (c : List ℚ) :
    (initRows c).map (fun x => x.content) = c := by
  induction c with
  | nil => rfl
  | cons x rest ih => simp only [initRows, List.map_cons] at ih ⊢; rw [ih]

lemma initRows_flexCount (c : List ℚ) : flexCountOf (initRows c) = c.length := by
  induction c with
  | nil => rfl
  | cons x rest ih =>
    simp only [initRows, List.map_cons] at ih ⊢
    rw [flexCountOf_cons, if_neg (by simp), ih, List.length_cons]
    omega

lemma initRows_flexSum (c : List ℚ) : flexSum (initRows c) = c.sum := by
  induction c with
  | nil => rfl
  | cons x rest ih =>
    simp only [initRows, List.map_cons] at ih ⊢
    rw [flexSum_cons]
    simpa using ih

lemma initRows_heightsInv (c : List ℚ) : HeightsInv (initRows c) := by
  intro row hrow hfix
  obtain ⟨x, -, hx⟩ := List.mem_map.mp hrow
  rw [← hx] at hfix
  simp at hfix

lemma assign_sum (s : ℚ) (rows : List DRow) (hinv : HeightsInv rows) :
    (rows.map (fun row => if row.fixed then row.height else s)).sum
      = fixedSum rows + (flexCountOf rows : ℚ) * s := by
  induction rows with
  | nil => simp [fixedSum, flexCountOf]
  | cons row rest ih =>
    have hrest : HeightsInv rest := fun x hx => hinv x (List.mem_cons_of_mem _ hx)
    rw [List.map_cons, List.sum_cons, fixedSum_cons, flexCountOf_cons, ih hrest]
    by_cases h1 : row.fixed
    · rw [if_pos h1, if_pos h1, if_pos h1, hinv row (List.mem_cons_self _ _) h1]
      push_cast
      ring
    · rw [if_neg h1, if_neg h1, if_neg h1]
      push_cast
      ring

lemma forall₂_map_of_forall {α β γ : Type} (p : β → γ → Prop) (f : α → β)
    (g : α → γ) (l : List α) (h : ∀ x ∈ l, p (f x) (g x)) :
    List.Forall₂ p (l.map f) (l.map g) := by
  induction l with
  | nil => simp
  | cons x rest ih =>
    simp only [List.map_cons]
    exact List.Forall₂.cons (h x (List.mem_cons_self _ _))
      (ih (fun y hy => h y (List.mem_cons_of_mem _ hy)))

lemma distributeRowHeightsFull_eq (c : List ℚ) (T : ℚ) :
    distributeRowHeightsFull c T = distLoop c.length (initRows c) T c.length := rfl

lemma distributeRowHeights_eq (c : List ℚ) (T : ℚ) :
    distributeRowHeights c T
      = (distLoop c.length (initRows c) T c.length).1.map
          (fun row => if row.fixed then row.height
            else if 0 < (distLoop c.length (initRows c) T c.length).2.2
              then (distLoop c.length (initRows c) T c.length).2.1
                    / ((distLoop c.length (initRows c) T c.length).2.2 : ℚ)
              else 0) := rfl

/-! ## Claim C1 -/

/-- C1 (counterexample): as stated — for EVERY content-height list and
available grid height — the claim fails.  With a single row of content
height 10 and only 5 available, the row is pinned to 10, so the returned
heights sum to 10, not 5 (this is the degraded overflow regime the
font-size search deliberately accepts at the floor size); the empty list
likewise cannot sum to a nonzero available height. -/
theorem c1_sum_counterexample :
    (distributeRowHeights [10] 5).sum ≠ 5
      ∧ (distributeRowHeights ([] : List ℚ) 5).sum ≠ 5 := by
  constructor <;>
    norm_num [distributeRowHeights, distributeRowHeightsFull, distLoop, distPass]

/-- C1 (amended): whenever the per-row content-height list is non-empty
and its total does not exceed the available grid height (precisely the
situation in which calculateOptimalLayout accepts a font size, outside the
degraded floor fallback), the row-height solution returned by
distributeRowHeights sums to exactly the available grid height; and — for
every content-height list and available height, the degraded overflow
regime included — every row pinned as fixed receives a height at least
(indeed equal to) its content height. -/
theorem c1_rowHeights_sum (c : List ℚ) (T : ℚ) :
    ((c ≠ [] ∧ c.sum ≤ T) → (distributeRowHeights c T).sum = T)
    ∧ ∀ i : Nat, (rowFixedFlags c T).getD i false = true →
        c.getD i 0 ≤ (distributeRowHeights c T).getD i 0 := by
  have hsync : c.length = flexCountOf (initRows c) := (initRows_flexCount c).symm
  obtain ⟨hcont, hsyncE, hrem, hinvE⟩ :=
    distLoop_invariants c.length (initRows c) T c.length hsync
  have hinv := hinvE (initRows_heightsInv c)
  set D := distLoop c.length (initRows c) T c.length with hD
  have hres0 : distributeRowHeights c T
      = D.1.map (fun row => if row.fixed then row.height
          else if 0 < D.2.2 then D.2.1 / (D.2.2 : ℚ) else 0) := by
    rw [distributeRowHeights_eq, ← hD]
  have hcsum : c.sum = fixedSum D.1 + flexSum D.1 := by
    have h1 : (D.1.map (fun x => x.content)).sum = c.sum := by
      rw [hcont, initRows_contents]
    rw [← h1, contentSum_eq]
  constructor
  · rintro ⟨hne, hsum⟩
    have hlenpos : 1 ≤ c.length := List.length_pos.mpr hne
    have hpos := distLoop_flexCount_pos c.length (initRows c) T c.length hsync
      (by rw [initRows_flexSum]; exact hsum) hlenpos
    rw [← hD] at hpos
    have hDne : ((D.2.2 : ℚ)) ≠ 0 := by
      have : (0 : ℚ) < (D.2.2 : ℚ) := by exact_mod_cast hpos
      exact ne_of_gt this
    have hpos0 : 0 < D.2.2 := hpos
    have hres : distributeRowHeights c T
        = D.1.map (fun row => if row.fixed then row.height else D.2.1 / (D.2.2 : ℚ)) := by
      rw [hres0]
      refine List.map_congr_left ?_
      intro row _
      rw [if_pos hpos0]
    rw [hres, assign_sum _ _ hinv, ← hsyncE]
    have hmul : (D.2.2 : ℚ) * (D.2.1 / (D.2.2 : ℚ)) = D.2.1 := by
      field_simp
    rw [hmul]
    have hrem2 : D.2.1 - flexSum D.1 = T - c.sum := by
      rw [hrem, initRows_flexSum]
    linarith
  · intro i hfix
    have hflags : rowFixedFlags c T = D.1.map (fun row => row.fixed) := by
      rw [rowFixedFlags, distributeRowHeightsFull_eq, ← hD]
    by_cases hi : i < D.1.length
    · have hfixi : D.1[i].fixed = true := by
        rw [hflags] at hfix
        rw [List.getD_eq_getElem _ _ (by simpa using hi), List.getElem_map] at hfix
        simpa using hfix
      have hmem : D.1[i] ∈ D.1 := List.getElem_mem hi
      have hcg : c.getD i 0 = D.1[i].content := by
        have hc_eq : c = D.1.map (fun x => x.content) := by
          rw [hcont, initRows_contents]
        rw [hc_eq, List.getD_eq_getElem _ _ (by simpa using hi), List.getElem_map]
      have hrg : (distributeRowHeights c T).getD i 0 = D.1[i].content := by
        rw [hres0, List.getD_eq_getElem _ _ (by simpa using hi), List.getElem_map]
        rw [if_pos hfixi, hinv _ hmem hfixi]
      rw [hcg, hrg]
    · exfalso
      rw [hflags] at hfix
      rw [List.getD_eq_default _ _ (by simpa using le_of_not_lt hi)] at hfix
      exact Bool.false_ne_true hfix

/-- C1 witness: the sum clause's hypotheses hold at [2] with 5 available,
and the unconditional fixed-row clause is also instantiated at the
overflow input [10] with 5 available, where the single row is pinned. -/
theorem c1_rowHeights_sum_witness :
    (distributeRowHeights [2] 5).sum = 5
    ∧ (∀ i : Nat, (rowFixedFlags [2] 5).getD i false = true →
        ([2] : List ℚ).getD i 0 ≤ (distributeRowHeights [2] 5).getD i 0)
    ∧ (∀ i : Nat, (rowFixedFlags [10] 5).getD i false = true →
        ([10] : List ℚ).getD i 0 ≤ (distributeRowHeights [10] 5).getD i 0) :=
  ⟨(c1_rowHeights_sum [2] 5).1 ⟨by simp, by norm_num⟩,
   (c1_rowHeights_sum [2] 5).2,
   (c1_rowHeights_sum [10] 5).2⟩

/-! ## Claim C4 -/

/-- C4: for every non-empty content-height list in which every row's
content height is strictly below the equal per-row share of the available
height, distributeRowHeights returns all-equal row heights (each the equal
share) summing exactly to the total available height. -/
theorem c4_equal_distribution (c : List ℚ) (T : ℚ) (hne : c ≠ [])
    (hlt : ∀ x ∈ c, x < T / (c.length : ℚ)) :
    distributeRowHeights c T = c.map (fun _ => T / (c.length : ℚ))
    ∧ (distributeRowHeights c T).sum = T := by
  have hlenpos : 1 ≤ c.length := List.length_pos.mpr hne
  obtain ⟨m, hm⟩ : ∃ m, c.length = m + 1 := ⟨c.length - 1, by omega⟩
  have hnofix : ∀ row ∈ initRows c, row.fixed = false →
      row.content ≤ T / (c.length : ℚ) := by
    intro row hrow _
    obtain ⟨x, hx, hxeq⟩ := List.mem_map.mp hrow
    rw [← hxeq]
    exact le_of_lt (hlt x hx)
  have hpass := distPass_no_fix (T / (c.length : ℚ)) (initRows c) T c.length false hnofix
  have hloop : distLoop c.length (initRows c) T c.length = (initRows c, T, c.length) := by
    nth_rewrite 1 [hm]
    simp only [distLoop]
    rw [hpass]
    simp
  have hres : distributeRowHeights c T = c.map (fun _ => T / (c.length : ℚ)) := by
    rw [distributeRowHeights_eq, hloop]
    simp only [initRows, List.map_map]
    refine List.map_congr_left ?_
    intro x _
    simp only [Function.comp_apply]
    rw [if_neg (by simp), if_pos (by omega)]
  refine ⟨hres, ?_⟩
  rw [hres, List.map_const', List.sum_replicate, nsmul_eq_mul]
  have hne0 : ((c.length : ℚ)) ≠ 0 := by
    have : (0 : ℚ) < (c.length : ℚ) := by exact_mod_cast hlenpos
    exact ne_of_gt this
  field_simp

/-- C4 witness. -/
theorem c4_equal_distribution_witness :
    distributeRowHeights [1, 2] 9 = ([1, 2] : List ℚ).map (fun _ => 9 / (([1, 2] : List ℚ).length : ℚ))
    ∧ (distributeRowHeights [1, 2] 9).sum = 9 :=
  c4_equal_distribution [1, 2] 9 (by simp)
    (by intro x hx; rcases List.mem_cons.mp hx with h | h
        · subst h; norm_num
        · simp only [List.mem_singleton] at h; subst h; norm_num)

/-! ## Claim C10 -/

/-- C10: for every list of non-negative content heights and every
non-negative total available height, every row height returned by
distributeRowHeights — flexible rows included, not only fixed ones — is at
least that row's content height: a row remains flexible only when its
content height does not exceed the final equal share, because the loop
exits either through a pass that changed nothing (so every still-flexible
row passed the comparison against exactly the final share) or with every
row fixed. -/
theorem c10_rowHeights_cover_content (c : List ℚ) (T : ℚ)
    (hc : ∀ x ∈ c, 0 ≤ x) (hT : 0 ≤ T) :
    List.Forall₂ (· ≤ ·) c (distributeRowHeights c T) := by
  have hsync : c.length = flexCountOf (initRows c) := (initRows_flexCount c).symm
  obtain ⟨hcont, hsyncE, hrem, hinvE⟩ :=
    distLoop_invariants c.length (initRows c) T c.length hsync
  have hinv := hinvE (initRows_heightsInv c)
  have hexit := distLoop_exit c.length (initRows c) T c.length hsync
    (by rw [initRows_flexCount])
  set D := distLoop c.length (initRows c) T c.length with hD
  have hc_eq : c = D.1.map (fun x => x.content) := by
    rw [hcont, initRows_contents]
  rw [distributeRowHeights_eq, ← hD]
  nth_rewrite 1 [hc_eq]
  apply forall₂_map_of_forall
  intro row hrow
  by_cases hfix : row.fixed
  · rw [if_pos hfix, hinv row hrow hfix]
  · rw [if_neg hfix]
    by_cases hDpos : 0 < D.2.2
    · rw [if_pos hDpos]
      rcases hexit with h0 | hb
      · omega
      · exact hb row hrow (by simpa using hfix)
    · exfalso
      have hzero : flexCountOf D.1 = 0 := by omega
      exact absurd (flexCountOf_zero_all_fixed D.1 hzero row hrow)
        (by simpa using hfix)

/-- C10 witness. -/
theorem c10_rowHeights_cover_content_witness :
    List.Forall₂ (· ≤ ·) ([3, 1] : List ℚ) (distributeRowHeights [3, 1] 4) :=
  c10_rowHeights_cover_content [3, 1] 4
    (by intro x hx; rcases List.mem_cons.mp hx with h | h
        · subst h; norm_num
        · simp only [List.mem_singleton] at h; subst h; norm_num)
    (by norm_num)

/-! ## JS dates and the CalendarEntry model (CalendarEntry.ts)

A JS Date is modelled by the five observations the source reads from it:
getFullYear / getMonth (0-based) / getDate / getHours / getMinutes.
getTime comparisons are modelled by an injective monotone key over those
fields (valid ranges: month0 < 12, 1 ≤ day ≤ 31, hour < 24, minute < 60),
and toDateString equality by equality of the calendar-day fields. -/

structure JSDate where
  year : Int
  month0 : Nat
  day : Nat
  hour : Nat
  minute : Nat
  deriving Repr, DecidableEq

/-- Monotone key mirroring Date.getTime ordering for in-range fields. -/
def JSDate.timeKey (d : JSDate) : Int :=
  (d.minute : Int) + 60 * ((d.hour : Int) + 24 * ((d.day : Int) + 32 * ((d.month0 : Int) + 12 * d.year)))

/-- Calendar-day-only key, used to bound the day-expansion loop. -/
def JSDate.dayKey (d : JSDate) : Int :=
  (d.day : Int) + 32 * ((d.month0 : Int) + 12 * d.year)

/-- toDateString()-equality: same calendar day. -/
def JSDate.sameDay (a b : JSDate) : Bool :=
  a.year == b.year && a.month0 == b.month0 && a.day == b.day

/-- The leap-year rule of the Gregorian calendar backing JS Date. -/
def jsIsLeap (y : Int) : Bool :=
  (y % 4 == 0 && y % 100 != 0) || (y % 400 == 0)

/-- Length of 0-based month m0 of year y in the calendar backing JS Date. -/
def jsMonthLen (y : Int) (m0 : Nat) : Nat :=
  if m0 == 1 then (if jsIsLeap y then 29 else 28)
  else if m0 == 3 || m0 == 5 || m0 == 8 || m0 == 10 then 30
  else 31

/-- setDate(getDate() + 1) with JS Date rollover normalization. -/
def JSDate.nextDay (d : JSDate) : JSDate :=
  if d.day + 1 ≤ jsMonthLen d.year d.month0 then { d with day := d.day + 1 }
  else if d.month0 + 1 ≤ 11 then { d with month0 := d.month0 + 1, day := 1 }
  else { year := d.year + 1, month0 := 0, day := 1, hour := d.hour, minute := d.minute }

/-- An RGB color triple (0-255 each). -/
structure RGB where
  r : Nat
  g : Nat
  b : Nat
  deriving Repr, DecidableEq

/-- CalendarEntry (CalendarEntry.ts): one appointment occurrence. -/
structure CEntry where
  day : Nat
  startDate : JSDate
  endDate : Option JSDate
  message : String
  textColor : RGB
  bgColor : RGB
  hideStartTime : Bool
  hideEndTime : Bool
  isContinuation : Bool
  originalStartDate : Option JSDate
  deriving Repr, DecidableEq

/-- The CalendarEntry constructor, with colors already resolved to RGB (the
string-hex path goes through html2rgb and is modelled separately): day is
derived from the start date, the three flags default to false. -/
def mkCalendarEntry (startDate : JSDate) (endDate : Option JSDate)
    (message : String) (textColor bgColor : RGB) : CEntry :=
  { day := startDate.day
    startDate := startDate
    endDate := endDate
    message := message
    textColor := textColor
    bgColor := bgColor
    hideStartTime := false
    hideEndTime := false
    isContinuation := false
    originalStartDate := none }

/-- CalendarEntry.isSpanningDays: an end date exists and falls on a
different calendar day than the start (the source compares day-truncated
Dates by getTime). -/
def CEntry.isSpanningDays (e : CEntry) : Bool :=
  match e.endDate with
  | none => false
  | some ed => !(JSDate.sameDay e.startDate ed)

/-- CalendarEntry.isAllDay: start at midnight and (no end, end at midnight,
or end at 23:59). -/
def CEntry.isAllDay (e : CEntry) : Bool :=
  e.startDate.hour == 0 && e.startDate.minute == 0 &&
    (match e.endDate with
     | none => true
     | some ed => (ed.hour == 0 && ed.minute == 0) || (ed.hour == 23 && ed.minute == 59))

/-- String.padStart(2, Zero) as used for minute formatting. -/
def padStart2 (s : String) : String :=
  if s.length < 2 then String.mk (List.replicate (2 - s.length) '0') ++ s else s

/-- CalendarEntry.getFormattedStartTime. -/
def CEntry.getFormattedStartTime (e : CEntry) : String :=
  if e.hideStartTime || e.isAllDay then ""
  else if e.startDate.minute == 0 then toString e.startDate.hour ++ "h "
  else toString e.startDate.hour ++ ":" ++ padStart2 (toString e.startDate.minute) ++ "h "

/-- CalendarEntry.getFormattedEndTime. -/
def CEntry.getFormattedEndTime (e : CEntry) : String :=
  match e.endDate with
  | none => ""
  | some ed =>
    if e.hideEndTime || e.isAllDay then ""
    else if ed.minute == 0 then toString ed.hour ++ "h"
    else toString ed.hour ++ ":" ++ padStart2 (toString ed.minute) ++ "h"

/-- CalendarEntry.cloneForDay: independent entry anchored at the given
day/month/year with the original start's hour/minute, no end date, fresh
default flags, and provenance in originalStartDate. -/
def CEntry.cloneForDay (e : CEntry) (day month : Nat) (year : Int) : CEntry :=
  let newStart : JSDate :=
    { year := year, month0 := month - 1, day := day
      hour := e.startDate.hour, minute := e.startDate.minute }
  { mkCalendarEntry newStart none e.message e.textColor e.bgColor with
      originalStartDate := some e.startDate }

/-! ## Multi-day expansion (CalendarBuilder.expandMultiDayEntries)

The source iterates a cursor date from the entry start while
current <= end, stepping one day at a time.  The recursion is bounded by a
fuel argument computed from the calendar-day distance between start and
end; for in-range dates the cursor's day key strictly increases each step,
so the fuel is an upper bound on the number of loop iterations and the
loop always exits through its own current <= end test, never through fuel
exhaustion. -/

def expandLoop (entry : CEntry) (origEnd : JSDate) (month : Nat) (year : Int) :
    Nat → JSDate → Bool → List CEntry
  | 0, _, _ => []
  | fuel + 1, current, isFirst =>
    if current.timeKey ≤ origEnd.timeKey then
      let here :=
        if current.month0 == month - 1 && current.year == year then
          let newEntry := entry.cloneForDay current.day month year
          let newEntry :=
            if !isFirst then
              { newEntry with
                  hideStartTime := true
                  isContinuation := true
                  message := "..." ++ entry.message }
            else newEntry
          let isLastDay := current.sameDay origEnd
          let newEntry :=
            if !isLastDay then
              { newEntry with
                  hideEndTime := true
                  message :=
                    if !newEntry.isContinuation then entry.message ++ "..."
                    else "..." ++ entry.message ++ "..." }
            else newEntry
          [newEntry]
        else []
      here ++ expandLoop entry origEnd month year fuel current.nextDay false
    else []

/-- Expansion of one entry against the page for (month, year); single-day
entries (or entries without an end date) pass through iff they start in
that month. -/
def expandEntry (month : Nat) (year : Int) (entry : CEntry) : List CEntry :=
  if !entry.isSpanningDays || entry.endDate == none then
    if entry.startDate.month0 == month - 1 && entry.startDate.year == year
    then [entry] else []
  else
    match entry.endDate with
    | none => []
    | some ed =>
      let fuel := (ed.dayKey - entry.startDate.dayKey + 1).toNat
      expandLoop entry ed month year fuel entry.startDate true

/-- CalendarBuilder.expandMultiDayEntries. -/
def expandMultiDayEntries (entries : List CEntry) (month : Nat) (year : Int) :
    List CEntry :=
  (entries.map (expandEntry month year)).flatten

/-! ## Claim C3 -/

/-- C3: a multi-day entry spanning Jan 30 9:00 - Feb 2 17:00 (2024)
expanded against the January page yields exactly two day-entries, Jan 30
(first day: start-time display kept, end time hidden, trailing ellipsis)
and Jan 31 (continuation: start time suppressed, ellipsis on both sides);
against the February page it yields exactly two day-entries, Feb 1 (a
continuation with both ellipsis markers) and Feb 2 (a continuation whose
hideEndTime stays false, so the original end-time display is kept, with
only the leading ellipsis). -/
theorem c3_expand_multiday_jan30_feb2 (msg : String) (tc bc : RGB) :
    expandMultiDayEntries
        [mkCalendarEntry ⟨2024, 0, 30, 9, 0⟩ (some ⟨2024, 1, 2, 17, 0⟩) msg tc bc] 1 2024
      = [{ day := 30, startDate := ⟨2024, 0, 30, 9, 0⟩, endDate := none,
           message := msg ++ "...", textColor := tc, bgColor := bc,
           hideStartTime := false, hideEndTime := true, isContinuation := false,
           originalStartDate := some ⟨2024, 0, 30, 9, 0⟩ },
         { day := 31, startDate := ⟨2024, 0, 31, 9, 0⟩, endDate := none,
           message := "..." ++ msg ++ "...", textColor := tc, bgColor := bc,
           hideStartTime := true, hideEndTime := true, isContinuation := true,
           originalStartDate := some ⟨2024, 0, 30, 9, 0⟩ }]
    ∧ expandMultiDayEntries
        [mkCalendarEntry ⟨2024, 0, 30, 9, 0⟩ (some ⟨2024, 1, 2, 17, 0⟩) msg tc bc] 2 2024
      = [{ day := 1, startDate := ⟨2024, 1, 1, 9, 0⟩, endDate := none,
           message := "..." ++ msg ++ "...", textColor := tc, bgColor := bc,
           hideStartTime := true, hideEndTime := true, isContinuation := true,
           originalStartDate := some ⟨2024, 0, 30, 9, 0⟩ },
         { day := 2, startDate := ⟨2024, 1, 2, 9, 0⟩, endDate := none,
           message := "..." ++ msg, textColor := tc, bgColor := bc,
           hideStartTime := true, hideEndTime := false, isContinuation := true,
           originalStartDate := some ⟨2024, 0, 30, 9, 0⟩ }] := by
  constructor
  · have h1 : expandMultiDayEntries
        [mkCalendarEntry ⟨2024, 0, 30, 9, 0⟩ (some ⟨2024, 1, 2, 17, 0⟩) msg tc bc] 1 2024
      = expandLoop (mkCalendarEntry ⟨2024, 0, 30, 9, 0⟩ (some ⟨2024, 1, 2, 17, 0⟩) msg tc bc)
          ⟨2024, 1, 2, 17, 0⟩ 1 2024 5 ⟨2024, 0, 30, 9, 0⟩ true := by
      simp [expandMultiDayEntries, expandEntry, mkCalendarEntry, CEntry.isSpanningDays,
        JSDate.sameDay, JSDate.dayKey]
    rw [h1]
    simp [expandLoop, mkCalendarEntry, CEntry.cloneForDay, JSDate.sameDay,
      JSDate.nextDay, jsMonthLen, jsIsLeap, JSDate.timeKey]
  · have h1 : expandMultiDayEntries
        [mkCalendarEntry ⟨2024, 0, 30, 9, 0⟩ (some ⟨2024, 1, 2, 17, 0⟩) msg tc bc] 2 2024
      = expandLoop (mkCalendarEntry ⟨2024, 0, 30, 9, 0⟩ (some ⟨2024, 1, 2, 17, 0⟩) msg tc bc)
          ⟨2024, 1, 2, 17, 0⟩ 2 2024 5 ⟨2024, 0, 30, 9, 0⟩ true := by
      simp [expandMultiDayEntries, expandEntry, mkCalendarEntry, CEntry.isSpanningDays,
        JSDate.sameDay, JSDate.dayKey]
    rw [h1]
    simp [expandLoop, mkCalendarEntry, CEntry.cloneForDay, JSDate.sameDay,
      JSDate.nextDay, jsMonthLen, jsIsLeap, JSDate.timeKey]

/-! ## Content-height estimation (CalendarBuilder.estimateRowContentHeights)

The day-to-entries Map of the source (entriesByDay.get(day) with a []
default) is modelled as a total function from day numbers to entry lists.
Math.floor / Math.ceil on JS numbers become Rat.floor / Rat.ceil, and the
decimal constants 1.4, 0.55 and 1.2 are the exact rationals 7/5, 11/20 and
6/5. -/

/-- Estimated height of one day cell: cell margins plus the day-number
allowance, plus per entry a wrapped-line estimate at the given font size. -/
def estCellHeight (fs textWidth : ℚ) (entries : List CEntry) : ℚ :=
  entries.foldl
    (fun cellHeight e =>
      let timeStr :=
        if !e.hideStartTime && !e.isAllDay then e.getFormattedStartTime else ""
      let text := timeStr ++ e.message
      let charsPerLine : ℚ := max 1 ((Rat.floor (textWidth / (fs * (11 / 20))) : ℚ))
      let lines : ℚ := max 1 ((Rat.ceil ((text.length : ℚ) / charsPerLine) : ℚ))
      cellHeight + lines * (fs * (7 / 5)) + 2)
    (4 + 14 * (6 / 5))

/-- The inner column loop of estimateRowContentHeights: scans the 7
columns of one row (colsLeft counts down from 7), skipping leading blanks
of the first row and trailing blanks after the last day, and threads the
running maximum cell height and the current day. -/
def estRowCols (entriesByDay : Nat → List CEntry) (fs textWidth : ℚ)
    (row weekdayOfFirst daysInMonth : Nat) : Nat → Nat → ℚ → ℚ × Nat
  | 0, currentDay, maxH => (maxH, currentDay)
  | colsLeft + 1, currentDay, maxH =>
    let col := 7 - (colsLeft + 1)
    if row = 0 ∧ col < weekdayOfFirst then
      estRowCols entriesByDay fs textWidth row weekdayOfFirst daysInMonth
        colsLeft currentDay maxH
    else if daysInMonth < currentDay then
      estRowCols entriesByDay fs textWidth row weekdayOfFirst daysInMonth
        colsLeft currentDay maxH
    else
      estRowCols entriesByDay fs textWidth row weekdayOfFirst daysInMonth
        colsLeft (currentDay + 1)
        (max maxH (estCellHeight fs textWidth (entriesByDay currentDay)))

/-- The outer row loop of estimateRowContentHeights; each row's maximum
starts from the minimum row height (day-number allowance plus cell
margins). -/
def estRows (entriesByDay : Nat → List CEntry) (fs textWidth : ℚ)
    (weekdayOfFirst daysInMonth : Nat) : Nat → Nat → Nat → List ℚ
  | 0, _, _ => []
  | rowsLeft + 1, row, currentDay =>
    let out := estRowCols entriesByDay fs textWidth row weekdayOfFirst daysInMonth
      7 currentDay (14 * (6 / 5) + 4)
    out.1 :: estRows entriesByDay fs textWidth weekdayOfFirst daysInMonth
      rowsLeft (row + 1) out.2

/-- CalendarBuilder.estimateRowContentHeights. -/
def estimateRowContentHeights (entriesByDay : Nat → List CEntry)
    (numRows weekdayOfFirst daysInMonth : Nat) (colWidthPt entryFontSize : ℚ) :
    List ℚ :=
  estRows entriesByDay entryFontSize (colWidthPt - 4) weekdayOfFirst daysInMonth
    numRows 0 1

/-! ## Adaptive font-size search (CalendarBuilder.calculateOptimalLayout)

The while loop starts at ENTRY_FONT_SIZE = 8, decrements by 0.5 while the
font size stays at least MIN_FONT_SIZE = 5, and is bounded by a fuel of 7
(the exact number of candidate sizes 8, 7.5, ..., 5), so from the entry
point the recursion always exits through the fs < 5 test or a fitting
size, never through fuel exhaustion (the fuel-0 fallback returns the same
floor result the loop exit would). -/

def calcGo (entriesByDay : Nat → List CEntry)
    (numRows weekdayOfFirst daysInMonth : Nat) (colWidthPt gridHeightPt : ℚ) :
    Nat → ℚ → ℚ × List ℚ
  | 0, fs =>
    if fs < 5 then
      (5, distributeRowHeights
        (estimateRowContentHeights entriesByDay numRows weekdayOfFirst daysInMonth
          colWidthPt 5) gridHeightPt)
    else
      let contentHeights := estimateRowContentHeights entriesByDay numRows
        weekdayOfFirst daysInMonth colWidthPt fs
      if contentHeights.sum ≤ gridHeightPt then
        (fs, distributeRowHeights contentHeights gridHeightPt)
      else
        (5, distributeRowHeights
          (estimateRowContentHeights entriesByDay numRows weekdayOfFirst daysInMonth
            colWidthPt 5) gridHeightPt)
  | fuel + 1, fs =>
    if fs < 5 then
      (5, distributeRowHeights
        (estimateRowContentHeights entriesByDay numRows weekdayOfFirst daysInMonth
          colWidthPt 5) gridHeightPt)
    else
      let contentHeights := estimateRowContentHeights entriesByDay numRows
        weekdayOfFirst daysInMonth colWidthPt fs
      if contentHeights.sum ≤ gridHeightPt then
        (fs, distributeRowHeights contentHeights gridHeightPt)
      else
        calcGo entriesByDay numRows weekdayOfFirst daysInMonth colWidthPt gridHeightPt
          fuel (fs - 1 / 2)

/-- CalendarBuilder.calculateOptimalLayout: returns the accepted entry
font size and the distributed row heights. -/
def calculateOptimalLayout (entriesByDay : Nat → List CEntry)
    (numRows weekdayOfFirst daysInMonth : Nat) (colWidthPt gridHeightPt : ℚ) :
    ℚ × List ℚ :=
  calcGo entriesByDay numRows weekdayOfFirst daysInMonth colWidthPt gridHeightPt 7 8

/-- The descending candidate font sizes visited by the search. -/
def fontCandidates : List ℚ := [8, 15 / 2, 7, 13 / 2, 6, 11 / 2, 5]

/-- The content estimated at font size fs fits the available grid
height. -/
def FitsAt (entriesByDay : Nat → List CEntry)
    (numRows weekdayOfFirst daysInMonth : Nat) (colWidthPt gridHeightPt fs : ℚ) :
    Prop :=
  (estimateRowContentHeights entriesByDay numRows weekdayOfFirst daysInMonth
    colWidthPt fs).sum ≤ gridHeightPt

lemma calcGo_succ (entriesByDay : Nat → List CEntry)
    (numRows weekdayOfFirst daysInMonth : Nat) (colWidthPt gridHeightPt : ℚ)
    (fuel : Nat) (fs : ℚ) :
    calcGo entriesByDay numRows weekdayOfFirst daysInMonth colWidthPt gridHeightPt
        (fuel + 1) fs
      = if fs < 5 then
          (5, distributeRowHeights
            (estimateRowContentHeights entriesByDay numRows weekdayOfFirst daysInMonth
              colWidthPt 5) gridHeightPt)
        else if (estimateRowContentHeights entriesByDay numRows weekdayOfFirst
            daysInMonth colWidthPt fs).sum ≤ gridHeightPt then
          (fs, distributeRowHeights
            (estimateRowContentHeights entriesByDay numRows weekdayOfFirst daysInMonth
              colWidthPt fs) gridHeightPt)
        else
          calcGo entriesByDay numRows weekdayOfFirst daysInMonth colWidthPt
            gridHeightPt fuel (fs - 1 / 2) := rfl

lemma calcGo_zero (entriesByDay : Nat → List CEntry)
    (numRows weekdayOfFirst daysInMonth : Nat) (colWidthPt gridHeightPt : ℚ)
    (fs : ℚ) (h : fs < 5) :
    calcGo entriesByDay numRows weekdayOfFirst daysInMonth colWidthPt gridHeightPt
        0 fs
      = (5, distributeRowHeights
          (estimateRowContentHeights entriesByDay numRows weekdayOfFirst daysInMonth
            colWidthPt 5) gridHeightPt) := by
  simp only [calcGo, if_pos h]

/-! ## Claim C2 -/

/-- C2: for every grouped entry map and grid height, calculateOptimalLayout
returns the largest font size among the descending candidates
8, 7.5, ..., 5 at which the estimated row content heights sum within the
available grid height, with the heights distributed at that size; if no
candidate down to the floor 5 fits, it returns the floor with the heights
distributed anyway.  The search is a total function (it never raises an
error): every input falls into one of the two disjuncts. -/
theorem c2_adaptive_font_search (E : Nat → List CEntry)
    (n w d : Nat) (c g : ℚ) :
    ((calculateOptimalLayout E n w d c g).2
       = distributeRowHeights
           (estimateRowContentHeights E n w d c (calculateOptimalLayout E n w d c g).1) g)
    ∧ (((calculateOptimalLayout E n w d c g).1 ∈ fontCandidates
         ∧ FitsAt E n w d c g (calculateOptimalLayout E n w d c g).1
         ∧ ∀ s ∈ fontCandidates, FitsAt E n w d c g s →
             s ≤ (calculateOptimalLayout E n w d c g).1)
       ∨ ((∀ s ∈ fontCandidates, ¬ FitsAt E n w d c g s)
           ∧ (calculateOptimalLayout E n w d c g).1 = 5)) := by
  have hres : calculateOptimalLayout E n w d c g = calcGo E n w d c g 7 8 := rfl
  rw [calcGo_succ] at hres
  rw [if_neg (by norm_num : ¬((8 : ℚ) < 5))] at hres
  by_cases h0 : (estimateRowContentHeights E n w d c (8)).sum ≤ g
  · rw [if_pos h0] at hres
    refine ⟨?_, Or.inl ⟨?_, ?_, ?_⟩⟩
    · rw [hres]
    · rw [hres]
      show (8 : ℚ) ∈ fontCandidates
      norm_num [fontCandidates]
    · rw [hres]
      exact h0
    · rw [hres]
      intro s hs hfit
      simp only [fontCandidates, List.mem_cons, List.not_mem_nil, or_false] at hs
      rcases hs with rfl | rfl | rfl | rfl | rfl | rfl | rfl
      · norm_num
      · norm_num
      · norm_num
      · norm_num
      · norm_num
      · norm_num
      · norm_num
  · rw [if_neg h0] at hres
    rw [show (8 : ℚ) - 1 / 2 = 15 / 2 from by norm_num] at hres
    rw [calcGo_succ] at hres
    rw [if_neg (by norm_num : ¬((15 / 2 : ℚ) < 5))] at hres
    by_cases h1 : (estimateRowContentHeights E n w d c (15 / 2)).sum ≤ g
    · rw [if_pos h1] at hres
      refine ⟨?_, Or.inl ⟨?_, ?_, ?_⟩⟩
      · rw [hres]
      · rw [hres]
        show (15 / 2 : ℚ) ∈ fontCandidates
        norm_num [fontCandidates]
      · rw [hres]
        exact h1
      · rw [hres]
        intro s hs hfit
        simp only [fontCandidates, List.mem_cons, List.not_mem_nil, or_false] at hs
        rcases hs with rfl | rfl | rfl | rfl | rfl | rfl | rfl
        · exact absurd hfit h0
        · norm_num
        · norm_num
        · norm_num
        · norm_num
        · norm_num
        · norm_num
    · rw [if_neg h1] at hres
      rw [show (15 / 2 : ℚ) - 1 / 2 = 7 from by norm_num] at hres
      rw [calcGo_succ] at hres
      rw [if_neg (by norm_num : ¬((7 : ℚ) < 5))] at hres
      by_cases h2 : (estimateRowContentHeights E n w d c (7)).sum ≤ g
      · rw [if_pos h2] at hres
        refine ⟨?_, Or.inl ⟨?_, ?_, ?_⟩⟩
        · rw [hres]
        · rw [hres]
          show (7 : ℚ) ∈ fontCandidates
          norm_num [fontCandidates]
        · rw [hres]
          exact h2
        · rw [hres]
          intro s hs hfit
          simp only [fontCandidates, List.mem_cons, List.not_mem_nil, or_false] at hs
          rcases hs with rfl | rfl | rfl | rfl | rfl | rfl | rfl
          · exact absurd hfit h0
          · exact absurd hfit h1
          · norm_num
          · norm_num
          · norm_num
          · norm_num
          · norm_num
      · rw [if_neg h2] at hres
        rw [show (7 : ℚ) - 1 / 2 = 13 / 2 from by norm_num] at hres
        rw [calcGo_succ] at hres
        rw [if_neg (by norm_num : ¬((13 / 2 : ℚ) < 5))] at hres
        by_cases h3 : (estimateRowContentHeights E n w d c (13 / 2)).sum ≤ g
        · rw [if_pos h3] at hres
          refine ⟨?_, Or.inl ⟨?_, ?_, ?_⟩⟩
          · rw [hres]
          · rw [hres]
            show (13 / 2 : ℚ) ∈ fontCandidates
            norm_num [fontCandidates]
          · rw [hres]
            exact h3
          · rw [hres]
            intro s hs hfit
            simp only [fontCandidates, List.mem_cons, List.not_mem_nil, or_false] at hs
            rcases hs with rfl | rfl | rfl | rfl | rfl | rfl | rfl
            · exact absurd hfit h0
            · exact absurd hfit h1
            · exact absurd hfit h2
            · norm_num
            · norm_num
            · norm_num
            · norm_num
        · rw [if_neg h3] at hres
          rw [show (13 / 2 : ℚ) - 1 / 2 = 6 from by norm_num] at hres
          rw [calcGo_succ] at hres
          rw [if_neg (by norm_num : ¬((6 : ℚ) < 5))] at hres
          by_cases h4 : (estimateRowContentHeights E n w d c (6)).sum ≤ g
          · rw [if_pos h4] at hres
            refine ⟨?_, Or.inl ⟨?_, ?_, ?_⟩⟩
            · rw [hres]
            · rw [hres]
              show (6 : ℚ) ∈ fontCandidates
              norm_num [fontCandidates]
            · rw [hres]
              exact h4
            · rw [hres]
              intro s hs hfit
              simp only [fontCandidates, List.mem_cons, List.not_mem_nil, or_false] at hs
              rcases hs with rfl | rfl | rfl | rfl | rfl | rfl | rfl
              · exact absurd hfit h0
              · exact absurd hfit h1
              · exact absurd hfit h2
              · exact absurd hfit h3
              · norm_num
              · norm_num
              · norm_num
          · rw [if_neg h4] at hres
            rw [show (6 : ℚ) - 1 / 2 = 11 / 2 from by norm_num] at hres
            rw [calcGo_succ] at hres
            rw [if_neg (by norm_num : ¬((11 / 2 : ℚ) < 5))] at hres
            by_cases h5 : (estimateRowContentHeights E n w d c (11 / 2)).sum ≤ g
            · rw [if_pos h5] at hres
              refine ⟨?_, Or.inl ⟨?_, ?_, ?_⟩⟩
              · rw [hres]
              · rw [hres]
                show (11 / 2 : ℚ) ∈ fontCandidates
                norm_num [fontCandidates]
              · rw [hres]
                exact h5
              · rw [hres]
                intro s hs hfit
                simp only [fontCandidates, List.mem_cons, List.not_mem_nil, or_false] at hs
                rcases hs with rfl | rfl | rfl | rfl | rfl | rfl | rfl
                · exact absurd hfit h0
                · exact absurd hfit h1
                · exact absurd hfit h2
                · exact absurd hfit h3
                · exact absurd hfit h4
                · norm_num
                · norm_num
            · rw [if_neg h5] at hres
              rw [show (11 / 2 : ℚ) - 1 / 2 = 5 from by norm_num] at hres
              rw [calcGo_succ] at hres
              rw [if_neg (by norm_num : ¬((5 : ℚ) < 5))] at hres
              by_cases h6 : (estimateRowContentHeights E n w d c (5)).sum ≤ g
              · rw [if_pos h6] at hres
                refine ⟨?_, Or.inl ⟨?_, ?_, ?_⟩⟩
                · rw [hres]
                · rw [hres]
                  show (5 : ℚ) ∈ fontCandidates
                  norm_num [fontCandidates]
                · rw [hres]
                  exact h6
                · rw [hres]
                  intro s hs hfit
                  simp only [fontCandidates, List.mem_cons, List.not_mem_nil, or_false] at hs
                  rcases hs with rfl | rfl | rfl | rfl | rfl | rfl | rfl
                  · exact absurd hfit h0
                  · exact absurd hfit h1
                  · exact absurd hfit h2
                  · exact absurd hfit h3
                  · exact absurd hfit h4
                  · exact absurd hfit h5
                  · norm_num
              · rw [if_neg h6] at hres
                rw [show (5 : ℚ) - 1 / 2 = 9 / 2 from by norm_num] at hres
                rw [calcGo_zero _ _ _ _ _ _ _ (by norm_num : ((9 / 2 : ℚ)) < 5)] at hres
                refine ⟨?_, Or.inr ⟨?_, ?_⟩⟩
                · rw [hres]
                · intro s hs
                  simp only [fontCandidates, List.mem_cons, List.not_mem_nil, or_false] at hs
                  rcases hs with rfl | rfl | rfl | rfl | rfl | rfl | rfl
                  · exact h0
                  · exact h1
                  · exact h2
                  · exact h3
                  · exact h4
                  · exact h5
                  · exact h6
                · rw [hres]

/-! ## Color parsing (spec-modelled) and the Builder (CalendarBuilder.ts)

ColorUtils.ts itself is not among the provided sources (only its callers
are), so html2rgb is modelled from the spec. -/

/-- Value of one hex digit (0-9, a-f, A-F), as parseInt base 16 reads
it. -/
def hexVal (c : Char) : Option Nat :=
  if '0' ≤ c ∧ c ≤ '9' then some (c.toNat - '0'.toNat)
  else if 'a' ≤ c ∧ c ≤ 'f' then some (c.toNat - 'a'.toNat + 10)
  else if 'A' ≤ c ∧ c ≤ 'F' then some (c.toNat - 'A'.toNat + 10)
  else none

/-- Modelled from the spec: ColorUtils.html2rgb / hexToRgb parses a
RRGGBB string with an optional leading hash mark, producing the RGB triple,
and fails with a ColorFormatError unless exactly 6 hex digits remain after
stripping the optional prefix (ColorUtils.ts is not among the provided
sources). -/
def html2rgbCore : List Char → Except String RGB
  | [c1, c2, c3, c4, c5, c6] =>
    match hexVal c1, hexVal c2, hexVal c3, hexVal c4, hexVal c5, hexVal c6 with
    | some a, some b, some c, some d, some e, some f =>
      .ok ⟨16 * a + b, 16 * c + d, 16 * e + f⟩
    | _, _, _, _, _, _ => .error "ColorFormatError"
  | _ => .error "ColorFormatError"

/-- Modelled from the spec: strip the optional leading hash mark, then
parse exactly six hex digits. -/
def html2rgb (s : String) : Except String RGB :=
  html2rgbCore (if s.toList.head? = some '#' then s.toList.drop 1 else s.toList)

/-- The string | RGB union type of the entry color parameters. -/
inductive ColorArg where
  | hex (s : String)
  | rgb (c : RGB)

/-- The typeof check of the CalendarEntry constructor: strings go through
html2rgb, RGB triples pass unchanged. -/
def resolveColor : ColorArg → Except String RGB
  | .hex s => html2rgb s
  | .rgb c => .ok c

/-- The CalendarEntry constructor including color normalization, which
fails fast on malformed hex strings. -/
def mkCalendarEntryE (startDate : JSDate) (endDate : Option JSDate)
    (message : String) (textColor bgColor : ColorArg) : Except String CEntry :=
  match resolveColor textColor, resolveColor bgColor with
  | .ok tc, .ok bc => .ok (mkCalendarEntry startDate endDate message tc bc)
  | .error e, _ => .error e
  | .ok _, .error e => .error e

/-- A category registered with the builder. -/
structure BCategory where
  id : String
  name : String
  textColor : RGB
  bgColor : RGB
  deriving Repr, DecidableEq

/-- One page = one month, with its unexpanded entries. -/
structure PageData where
  month : Nat
  year : Int
  title : String
  entries : List CEntry
  deriving Repr, DecidableEq

/-- The mutable state of a CalendarBuilder instance: the ordered page
list and the category Map (insertion-ordered association list with
replace-on-set, as a JS Map behaves). -/
structure BuilderState where
  pages : List PageData
  categories : List (String × BCategory)
  deriving Repr, DecidableEq

/-- JS Map.set: replace in place when the key exists, else append. -/
def mapSet : List (String × BCategory) → String → BCategory →
    List (String × BCategory)
  | [], id, cat => [(id, cat)]
  | (k, v) :: rest, id, cat =>
    if k = id then (k, cat) :: rest else (k, v) :: mapSet rest id cat

/-- JS Map.get returning undefined as none. -/
def mapGet : List (String × BCategory) → String → Option BCategory
  | [], _ => none
  | (k, v) :: rest, id => if k = id then some v else mapGet rest id

/-- German month names used for default page titles. -/
def MONTH_NAMES_DE : List String :=
  ["Januar", "Februar", "März", "April", "Mai", "Juni", "Juli", "August",
   "September", "Oktober", "November", "Dezember"]

/-- CalendarBuilder.addMonth: appends a page, with the title defaulting to
"MonthName Year". -/
def addMonth (st : BuilderState) (month : Nat) (year : Int)
    (title : Option String) : BuilderState :=
  let monthTitle :=
    title.getD ((MONTH_NAMES_DE.getD (month - 1) "") ++ " " ++ toString year)
  { st with pages := st.pages
      ++ [{ month := month, year := year, title := monthTitle, entries := [] }] }

/-- CalendarBuilder.addCategory: registers (or overwrites) a category,
normalizing both colors through html2rgb. -/
def addCategory (st : BuilderState) (id name textColor bgColor : String) :
    Except String BuilderState :=
  match html2rgb textColor, html2rgb bgColor with
  | .ok tc, .ok bc =>
    .ok { st with categories := mapSet st.categories id ⟨id, name, tc, bc⟩ }
  | .error e, _ => .error e
  | .ok _, .error e => .error e

/-- Appends an entry to the current (last-added) page. -/
def pushToLastPage : List PageData → CEntry → List PageData
  | [], _ => []
  | [p], entry => [{ p with entries := p.entries ++ [entry] }]
  | p :: q :: rest, entry => p :: pushToLastPage (q :: rest) entry

/-- CalendarBuilder.addEntry: throws (models as Except.error) when no
month has been added yet — the guard runs before any mutation, so the
state is unchanged on error — and otherwise appends the constructed entry
to the current page.  The TS default color arguments are the hex strings
black on white. -/
def addEntry (st : BuilderState) (startDate : JSDate) (endDate : Option JSDate)
    (message : String) (textColor bgColor : ColorArg) :
    Except String BuilderState :=
  if st.pages = [] then
    .error "No month added. Please call addMonth() first."
  else
    match mkCalendarEntryE startDate endDate message textColor bgColor with
    | .error e => .error e
    | .ok entry => .ok { st with pages := pushToLastPage st.pages entry }

/-- CalendarBuilder.addEntryWithCategory: resolves the category id in the
category Map; a registered category contributes its colors, an unknown id
falls back to addEntry's defaults (#000000 on #FFFFFF). -/
def addEntryWithCategory (st : BuilderState) (startDate : JSDate)
    (endDate : Option JSDate) (message : String) (categoryId : String) :
    Except String BuilderState :=
  match mapGet st.categories categoryId with
  | some category =>
    addEntry st startDate endDate message (.rgb category.textColor) (.rgb category.bgColor)
  | none =>
    addEntry st startDate endDate message (.hex "#000000") (.hex "#FFFFFF")

/-- CalendarBuilder.generate: throws (Except.error) when no month was ever
added; otherwise the page sequence, in insertion order, is handed to the
external pdfmake renderer (the binary PDF production is the out-of-scope
rendering primitive, so the model returns the page list that generate
iterates over). -/
def generate (st : BuilderState) : Except String (List PageData) :=
  if st.pages = [] then
    .error "No pages added. Please call addMonth() first."
  else
    .ok st.pages

/-! ## Claims C5 and C6 -/

lemma html2rgbCore_error_msg (cs : List Char) (e : String)
    (h : html2rgbCore cs = .error e) : e = "ColorFormatError" := by
  unfold html2rgbCore at h
  split at h
  · split at h <;> simp_all
  · simp_all

lemma html2rgb_error_msg (s e : String) (h : html2rgb s = .error e) :
    e = "ColorFormatError" := by
  unfold html2rgb at h
  exact html2rgbCore_error_msg _ e h

lemma resolveColor_error_msg (c : ColorArg) (e : String)
    (h : resolveColor c = .error e) : e = "ColorFormatError" := by
  cases c with
  | hex s => exact html2rgb_error_msg s e h
  | rgb c => simp [resolveColor] at h

lemma mkCalendarEntryE_error_msg (sd : JSDate) (ed : Option JSDate)
    (m : String) (tc bc : ColorArg) (e : String)
    (h : mkCalendarEntryE sd ed m tc bc = .error e) : e = "ColorFormatError" := by
  unfold mkCalendarEntryE at h
  split at h
  · simp_all
  · rename_i e1 heq
    simp only [Except.error.injEq] at h
    exact h ▸ resolveColor_error_msg tc e1 heq
  · rename_i e1 _ heq
    simp only [Except.error.injEq] at h
    exact h ▸ resolveColor_error_msg bc e1 heq

/-- C5: addEntry fails with the NoPageError message if and only if it runs
before any month has been added (the guard precedes any mutation, so the
builder state is untouched on error — the Except model returns without a
new state), and generate fails with the NoPagesError message if and only
if zero months have been added. -/
theorem c5_no_page_guards (st : BuilderState) (startDate : JSDate)
    (endDate : Option JSDate) (message : String) (textColor bgColor : ColorArg) :
    ((addEntry st startDate endDate message textColor bgColor
        = .error "No month added. Please call addMonth() first.")
      ↔ st.pages = [])
    ∧ ((generate st = .error "No pages added. Please call addMonth() first.")
      ↔ st.pages = []) := by
  constructor
  · constructor
    · intro h
      by_contra hne
      simp only [addEntry, if_neg hne] at h
      rcases hmk : mkCalendarEntryE startDate endDate message textColor bgColor with e | entry
      · rw [hmk] at h
        simp only [Except.error.injEq] at h
        have := mkCalendarEntryE_error_msg startDate endDate message textColor bgColor e hmk
        rw [this] at h
        exact absurd h (by decide)
      · rw [hmk] at h
        simp at h
    · intro h
      simp only [addEntry, if_pos h]
  · constructor
    · intro h
      by_contra hne
      simp only [generate, if_neg hne] at h
      simp at h
    · intro h
      simp only [generate, if_pos h]

/-- C6: with at least one month added, addEntryWithCategory with an
unregistered category id does not throw and appends an entry carrying the
default black-on-white colors; with a registered id it appends an entry
carrying that category's colors. -/
theorem c6_unknown_category_fallback (st : BuilderState) (startDate : JSDate)
    (endDate : Option JSDate) (message : String) (categoryId : String)
    (hne : st.pages ≠ []) :
    (mapGet st.categories categoryId = none →
      addEntryWithCategory st startDate endDate message categoryId
        = .ok { st with pages := (pushToLastPage st.pages
            (mkCalendarEntry startDate endDate message ⟨0, 0, 0⟩ ⟨255, 255, 255⟩)) })
    ∧ ∀ cat, mapGet st.categories categoryId = some cat →
      addEntryWithCategory st startDate endDate message categoryId
        = .ok { st with pages := (pushToLastPage st.pages
            (mkCalendarEntry startDate endDate message cat.textColor cat.bgColor)) } := by
  constructor
  · intro hnone
    simp only [addEntryWithCategory, hnone]
    simp only [addEntry, if_neg hne]
    have hdef : mkCalendarEntryE startDate endDate message
          (.hex "#000000") (.hex "#FFFFFF")
        = .ok (mkCalendarEntry startDate endDate message ⟨0, 0, 0⟩ ⟨255, 255, 255⟩) := rfl
    rw [hdef]
  · intro cat hsome
    simp only [addEntryWithCategory, hsome]
    simp only [addEntry, if_neg hne]
    have hcat : mkCalendarEntryE startDate endDate message
          (.rgb cat.textColor) (.rgb cat.bgColor)
        = .ok (mkCalendarEntry startDate endDate message cat.textColor cat.bgColor) := rfl
    rw [hcat]

/-- C6 witness. -/
theorem c6_unknown_category_fallback_witness :
    (mapGet (BuilderState.mk [⟨4, 2024, "April 2024", []⟩] []).categories "stale" = none →
      addEntryWithCategory (BuilderState.mk [⟨4, 2024, "April 2024", []⟩] [])
          ⟨2024, 3, 10, 9, 0⟩ none "Meeting" "stale"
        = .ok { BuilderState.mk [⟨4, 2024, "April 2024", []⟩] [] with
            pages := (pushToLastPage (BuilderState.mk [⟨4, 2024, "April 2024", []⟩] []).pages
              (mkCalendarEntry ⟨2024, 3, 10, 9, 0⟩ none "Meeting" ⟨0, 0, 0⟩ ⟨255, 255, 255⟩)) })
    ∧ ∀ cat, mapGet (BuilderState.mk [⟨4, 2024, "April 2024", []⟩] []).categories "stale" = some cat →
      addEntryWithCategory (BuilderState.mk [⟨4, 2024, "April 2024", []⟩] [])
          ⟨2024, 3, 10, 9, 0⟩ none "Meeting" "stale"
        = .ok { BuilderState.mk [⟨4, 2024, "April 2024", []⟩] [] with
            pages := (pushToLastPage (BuilderState.mk [⟨4, 2024, "April 2024", []⟩] []).pages
              (mkCalendarEntry ⟨2024, 3, 10, 9, 0⟩ none "Meeting" cat.textColor cat.bgColor)) } :=
  c6_unknown_category_fallback (BuilderState.mk [⟨4, 2024, "April 2024", []⟩] [])
    ⟨2024, 3, 10, 9, 0⟩ none "Meeting" "stale" (by simp)

/-! ## Contrast color (getContrastColor / getContrastColorHex)

Both functions strip the first hash mark, parse the three 2-character hex
slices with parseInt base 16, compute the perceptual brightness
(r*299 + g*587 + b*114)/1000 and pick near-black when it exceeds 128.
parseInt returning NaN (no leading hex digit) is modelled as none; every
comparison against NaN is false in JS, so the white branch is taken. -/

/-- parseInt(s, 16) on a slice of at most two characters: NaN (none)
without a leading hex digit, otherwise the value of the valid prefix. -/
def parseHex2 : List Char → Option Nat
  | [] => none
  | [a] => hexVal a
  | a :: b :: _ =>
    match hexVal a with
    | none => none
    | some va =>
      match hexVal b with
      | none => some va
      | some vb => some (16 * va + vb)

/-- String.replace of the first hash-mark occurrence by the empty
string. -/
def removeFirstHash : List Char → List Char
  | [] => []
  | c :: rest => if c = '#' then rest else c :: removeFirstHash rest

/-- getContrastColor (main entry script): hash-prefixed lowercase
output. -/
def getContrastColor (hexColor : String) : String :=
  let hex := removeFirstHash hexColor.toList
  match parseHex2 (hex.take 2), parseHex2 ((hex.drop 2).take 2),
      parseHex2 ((hex.drop 4).take 2) with
  | some r, some g, some b =>
    if ((r : ℚ) * 299 + (g : ℚ) * 587 + (b : ℚ) * 114) / 1000 > 128
    then "#000000" else "#ffffff"
  | _, _, _ => "#ffffff"

/-- getContrastColorHex (ExcelExporter.ts): unprefixed uppercase
output. -/
def getContrastColorHex (hexColor : String) : String :=
  let hex := removeFirstHash hexColor.toList
  match parseHex2 (hex.take 2), parseHex2 ((hex.drop 2).take 2),
      parseHex2 ((hex.drop 4).take 2) with
  | some r, some g, some b =>
    if ((r : ℚ) * 299 + (g : ℚ) * 587 + (b : ℚ) * 114) / 1000 > 128
    then "000000" else "FFFFFF"
  | _, _, _ => "FFFFFF"

/-- Lowercase two-digit hex rendering of a byte, used to quantify over all
valid 6-digit hex colors. -/
def toHex2 (n : Nat) : List Char :=
  [Nat.digitChar (n / 16 % 16), Nat.digitChar (n % 16)]

/-- A full #rrggbb color string for the given byte triple. -/
def rgbHexString (r g b : Nat) : String :=
  String.mk ('#' :: (toHex2 r ++ (toHex2 g ++ toHex2 b)))

set_option maxRecDepth 4000 in
lemma parseHex2_toHex2 : ∀ n, n < 256 → parseHex2 (toHex2 n) = some n := by decide

lemma contrast_hex_slices (r g b : Nat) (hr : r < 256) (hg : g < 256) (hb : b < 256) :
    parseHex2 ((removeFirstHash (rgbHexString r g b).toList).take 2) = some r
    ∧ parseHex2 (((removeFirstHash (rgbHexString r g b).toList).drop 2).take 2) = some g
    ∧ parseHex2 (((removeFirstHash (rgbHexString r g b).toList).drop 4).take 2) = some b := by
  have hpr := parseHex2_toHex2 r hr
  have hpg := parseHex2_toHex2 g hg
  have hpb := parseHex2_toHex2 b hb
  simp only [toHex2] at hpr hpg hpb
  simp only [rgbHexString, toHex2, String.toList, removeFirstHash, List.cons_append,
    List.nil_append, if_pos, List.take, List.drop]
  exact ⟨hpr, hpg, hpb⟩

lemma brightness_iff (r g b : Nat) :
    (((r : ℚ) * 299 + (g : ℚ) * 587 + (b : ℚ) * 114) / 1000 > 128)
      ↔ 128 * 1000 < r * 299 + g * 587 + b * 114 := by
  rw [gt_iff_lt, lt_div_iff₀ (by norm_num : (0 : ℚ) < 1000)]
  constructor
  · intro h
    have h2 : (128 * 1000 : ℚ) < (r : ℚ) * 299 + (g : ℚ) * 587 + (b : ℚ) * 114 := by
      linarith
    exact_mod_cast h2
  · intro h
    have h2 : (128 * 1000 : ℚ) < (r : ℚ) * 299 + (g : ℚ) * 587 + (b : ℚ) * 114 := by
      exact_mod_cast h
    linarith

/-! ## Claim C7 -/

/-- C7: for every valid 6-digit hex color #rrggbb (bytes r, g, b), the
contrast functions return near-black exactly when the perceptual
brightness (r*299 + g*587 + b*114)/1000 exceeds 128 and near-white
otherwise; brightness exactly 128 (e.g. #808080) falls into the white
branch since the comparison is strict. -/
theorem c7_contrast_color (r g b : Nat) (hr : r < 256) (hg : g < 256) (hb : b < 256) :
    getContrastColor (rgbHexString r g b)
        = (if 128 * 1000 < r * 299 + g * 587 + b * 114 then "#000000" else "#ffffff")
    ∧ getContrastColorHex (rgbHexString r g b)
        = (if 128 * 1000 < r * 299 + g * 587 + b * 114 then "000000" else "FFFFFF") := by
  obtain ⟨h1, h2, h3⟩ := contrast_hex_slices r g b hr hg hb
  constructor
  · simp only [getContrastColor, h1, h2, h3, brightness_iff]
  · simp only [getContrastColorHex, h1, h2, h3, brightness_iff]

/-- C7 witness: white text demands near-black, black demands near-white,
and the exact-128 boundary color #808080 resolves to near-white. -/
theorem c7_contrast_color_witness :
    getContrastColor (rgbHexString 255 255 255) = "#000000"
    ∧ getContrastColor (rgbHexString 0 0 0) = "#ffffff"
    ∧ getContrastColor (rgbHexString 128 128 128) = "#ffffff" :=
  ⟨((c7_contrast_color 255 255 255 (by norm_num) (by norm_num) (by norm_num)).1).trans
      (by norm_num),
   ((c7_contrast_color 0 0 0 (by norm_num) (by norm_num) (by norm_num)).1).trans
      (by norm_num),
   ((c7_contrast_color 128 128 128 (by norm_num) (by norm_num) (by norm_num)).1).trans
      (by norm_num)⟩

/-! ## Days in month (date-utils.ts getDaysInMonth) -/

/-- getDaysInMonth: new Date(year, month, 0).getDate().  In JS, day 0 of
the 0-based month index `month` normalizes to the last day of the
preceding month — which is the 1-based month `month` — so getDate()
returns that month's length in the calendar backing JS Date (the same
jsMonthLen that drives the expansion date cursor). -/
def getDaysInMonth (year : Int) (month : Nat) : Nat :=
  jsMonthLen year (month - 1)

/-- Gregorian leap-year rule, written from the spec's words: divisible by
4 and not by 100, or divisible by 400. -/
def gregorianLeap (y : Int) : Bool :=
  decide ((4 ∣ y ∧ ¬(100 ∣ y)) ∨ 400 ∣ y)

/-- Gregorian month lengths, written from the spec's words as the
reference for the refinement claim. -/
def gregorianDaysInMonth (y : Int) (m : Nat) : Nat :=
  if m = 2 then (if gregorianLeap y then 29 else 28)
  else if m = 4 ∨ m = 6 ∨ m = 9 ∨ m = 11 then 30
  else 31

/-! ## Claim C8 -/

set_option maxRecDepth 4000 in
/-- C8: for every year 1900-2100 and month 1-12, getDaysInMonth returns
the Gregorian number of days of that month, and returns 29 for February
exactly when the year is a leap year. -/
theorem c8_days_in_month (y : Int) (m : Nat)
    (hy1 : 1900 ≤ y) (hy2 : y ≤ 2100) (hm1 : 1 ≤ m) (hm2 : m ≤ 12) :
    getDaysInMonth y m = gregorianDaysInMonth y m
    ∧ (getDaysInMonth y 2 = 29 ↔ gregorianLeap y = true) := by
  have key : ∀ k : Nat, k < 201 → ∀ j : Nat, j < 12 →
      getDaysInMonth (1900 + (k : Int)) (j + 1)
          = gregorianDaysInMonth (1900 + (k : Int)) (j + 1)
      ∧ (getDaysInMonth (1900 + (k : Int)) 2 = 29
          ↔ gregorianLeap (1900 + (k : Int)) = true) := by decide
  have hyk : (1900 : Int) + ((y - 1900).toNat : Int) = y := by omega
  have h := key (y - 1900).toNat (by omega) (m - 1) (by omega)
  rw [hyk, show m - 1 + 1 = m from by omega] at h
  exact h

/-- C8 witness. -/
theorem c8_days_in_month_witness :
    getDaysInMonth 2024 2 = gregorianDaysInMonth 2024 2
    ∧ (getDaysInMonth 2024 2 = 29 ↔ gregorianLeap 2024 = true) :=
  c8_days_in_month 2024 2 (by norm_num) (by norm_num) (by norm_num) (by norm_num)

/-! ## Export filenames (generatePdfFilename / ExcelExporter.generateFilename)

The generation-time Date now is passed explicitly as its
(getFullYear, getMonth()+1, getDate) observations. -/

/-- One month/year pair of the export range (calendar.types MonthYear). -/
structure MonthYear where
  month : Nat
  year : Int
  deriving Repr, DecidableEq

/-- The generation date: year, 1-based month, day of month. -/
structure GenDate where
  year : Int
  month : Nat
  day : Nat
  deriving Repr, DecidableEq

/-- String(n).padStart(2, Zero) for a natural number. -/
def natPad2 (n : Nat) : String := padStart2 (toString n)

/-- ExcelExporter.generateFilename.  The empty-months arm is unreachable
in the application (every caller passes at least one month; the TS code
would interpolate undefined there). -/
def generateFilename (months : List MonthYear) (extension : String)
    (now : GenDate) : String :=
  let timestamp := toString now.year ++ natPad2 now.month ++ natPad2 now.day
  match months with
  | [] => ""
  | [m] =>
    "kalender_" ++ toString m.year ++ "_" ++ natPad2 m.month ++ "_"
      ++ timestamp ++ "." ++ extension
  | m :: rest =>
    let last := (m :: rest).getLastD m
    "kalender_" ++ toString m.year ++ natPad2 m.month ++ "-"
      ++ toString last.year ++ natPad2 last.month ++ "_"
      ++ timestamp ++ "." ++ extension

/-- CalendarBuilder.generatePdfFilename: the source duplicates the same
body with the extension fixed to pdf. -/
def generatePdfFilename (months : List MonthYear) (now : GenDate) : String :=
  generateFilename months "pdf" now

/-- The filename pattern exactly as the claim words it, with the literal
prefix calendar (second definition, written from the spec, for the
refinement comparison). -/
def specClaimFilename (months : List MonthYear) (extension : String)
    (now : GenDate) : String :=
  let pad := fun n : Nat => if n < 10 then "0" ++ toString n else toString n
  let timestamp := toString now.year ++ pad now.month ++ pad now.day
  match months with
  | [] => ""
  | [m] =>
    "calendar_" ++ toString m.year ++ "_" ++ pad m.month ++ "_"
      ++ timestamp ++ "." ++ extension
  | m :: rest =>
    let last := (m :: rest).getLastD m
    "calendar_" ++ toString m.year ++ pad m.month ++ "-"
      ++ toString last.year ++ pad last.month ++ "_"
      ++ timestamp ++ "." ++ extension

/-- The amended pattern: identical to the claim's but with the literal
prefix kalender the code actually writes. -/
def specKalenderFilename (months : List MonthYear) (extension : String)
    (now : GenDate) : String :=
  let pad := fun n : Nat => if n < 10 then "0" ++ toString n else toString n
  let timestamp := toString now.year ++ pad now.month ++ pad now.day
  match months with
  | [] => ""
  | [m] =>
    "kalender_" ++ toString m.year ++ "_" ++ pad m.month ++ "_"
      ++ timestamp ++ "." ++ extension
  | m :: rest =>
    let last := (m :: rest).getLastD m
    "kalender_" ++ toString m.year ++ pad m.month ++ "-"
      ++ toString last.year ++ pad last.month ++ "_"
      ++ timestamp ++ "." ++ extension

lemma natPad2_eq : ∀ n, n < 100 →
    natPad2 n = if n < 10 then "0" ++ toString n else toString n := by decide

lemma getLastD_mem {α : Type} (x : α) (l : List α) :
    (x :: l).getLastD x ∈ x :: l := by
  induction l generalizing x with
  | nil => simp
  | cons y rest ih =>
    rw [List.getLastD_cons]
    exact List.mem_cons_of_mem x (ih y)

/-! ## Claim C9 -/

/-- C9 (counterexample): the generated filenames start with the literal
kalender, not calendar as the claimed pattern states — at a concrete
single-month input the produced name differs from the claimed pattern. -/
theorem c9_filename_counterexample :
    generateFilename [⟨4, 2024⟩] "xlsx" ⟨2025, 1, 15⟩ = "kalender_2024_04_20250115.xlsx"
    ∧ generateFilename [⟨4, 2024⟩] "xlsx" ⟨2025, 1, 15⟩
        ≠ specClaimFilename [⟨4, 2024⟩] "xlsx" ⟨2025, 1, 15⟩
    ∧ generatePdfFilename [⟨4, 2024⟩] ⟨2025, 1, 15⟩ = "kalender_2024_04_20250115.pdf" := by
  refine ⟨rfl, ?_, rfl⟩
  decide

/-- C9 (amended): for every non-empty month list (calendar-valid months
and generation date), both export filename generators follow the claimed
pattern with the literal prefix kalender instead of calendar:
kalender_{year}_{month:2d}_{YYYYMMDD}.{ext} for a single month and
kalender_{startYear}{startMonth:2d}-{endYear}{endMonth:2d}_{YYYYMMDD}.{ext}
for a longer range, where the YYYYMMDD timestamp is the generation
date. -/
theorem c9_filename_pattern (months : List MonthYear) (extension : String)
    (now : GenDate) (hne : months ≠ [])
    (hm : ∀ my ∈ months, my.month ≤ 12)
    (hnm : now.month ≤ 12) (hnd : now.day ≤ 31) :
    generateFilename months extension now = specKalenderFilename months extension now
    ∧ generatePdfFilename months now = specKalenderFilename months "pdf" now := by
  have hts : toString now.year ++ natPad2 now.month ++ natPad2 now.day
      = toString now.year
        ++ (if now.month < 10 then "0" ++ toString now.month else toString now.month)
        ++ (if now.day < 10 then "0" ++ toString now.day else toString now.day) := by
    rw [natPad2_eq now.month (by omega), natPad2_eq now.day (by omega)]
  have main : generateFilename months extension now
      = specKalenderFilename months extension now := by
    match months with
    | [] => exact absurd rfl hne
    | [m] =>
      have hmm : m.month ≤ 12 := hm m (List.mem_cons_self _ _)
      simp only [generateFilename, specKalenderFilename]
      rw [natPad2_eq m.month (by omega), natPad2_eq now.month (by omega),
        natPad2_eq now.day (by omega)]
    | m :: m2 :: rest =>
      have hmm : m.month ≤ 12 := hm m (List.mem_cons_self _ _)
      have hlast : ((m :: m2 :: rest).getLastD m).month ≤ 12 :=
        hm _ (getLastD_mem m (m2 :: rest))
      simp only [generateFilename, specKalenderFilename]
      rw [natPad2_eq m.month (by omega), natPad2_eq _ (by omega : ((m :: m2 :: rest).getLastD m).month < 100),
        natPad2_eq now.month (by omega), natPad2_eq now.day (by omega)]
  refine ⟨main, ?_⟩
  have main2 : generateFilename months "pdf" now
      = specKalenderFilename months "pdf" now := by
    match months with
    | [] => exact absurd rfl hne
    | [m] =>
      have hmm : m.month ≤ 12 := hm m (List.mem_cons_self _ _)
      simp only [generateFilename, specKalenderFilename]
      rw [natPad2_eq m.month (by omega), natPad2_eq now.month (by omega),
        natPad2_eq now.day (by omega)]
    | m :: m2 :: rest =>
      have hmm : m.month ≤ 12 := hm m (List.mem_cons_self _ _)
      have hlast : ((m :: m2 :: rest).getLastD m).month ≤ 12 :=
        hm _ (getLastD_mem m (m2 :: rest))
      simp only [generateFilename, specKalenderFilename]
      rw [natPad2_eq m.month (by omega), natPad2_eq _ (by omega : ((m :: m2 :: rest).getLastD m).month < 100),
        natPad2_eq now.month (by omega), natPad2_eq now.day (by omega)]
  exact main2

/-- C9 witness. -/
theorem c9_filename_pattern_witness :
    generateFilename [⟨4, 2024⟩, ⟨12, 2025⟩] "xlsx" ⟨2026, 3, 7⟩
        = specKalenderFilename [⟨4, 2024⟩, ⟨12, 2025⟩] "xlsx" ⟨2026, 3, 7⟩
    ∧ generatePdfFilename [⟨4, 2024⟩, ⟨12, 2025⟩] ⟨2026, 3, 7⟩
        = specKalenderFilename [⟨4, 2024⟩, ⟨12, 2025⟩] "pdf" ⟨2026, 3, 7⟩ :=
  c9_filename_pattern [⟨4, 2024⟩, ⟨12, 2025⟩] "xlsx" ⟨2026, 3, 7⟩ (by simp)
    (by intro my hmy
        rcases List.mem_cons.mp hmy with h | h
        · subst h; norm_num
        · simp only [List.mem_singleton] at h; subst h; norm_num)
    (by norm_num) (by norm_num)

end PdfCal
